import Mathlib

/-!
Verification development for the `abdb` exporter core
(`src/exporter/src/book.rs` and `src/exporter/src/lib.rs`).

The Rust code folds per-file audio metadata fragments into one book record
per directory.  We shallowly embed the data model and the operations:

* `Track` / `AudioBook` mirror the Rust structs (`im::OrdSet<String>`
  becomes `Finset String`, `im::Vector<Track>` becomes `List Track`,
  `u32` becomes `Nat`, `i32` becomes `Int`).
* `Err` is the inductive of error values the code produces via `eyre!`;
  the conflict constructors carry the two conflicting values, as the
  formatted messages do.
* `Tag` abstracts the id3 tag interface consumed by `parse_file`
  (`title`, `artists`, `track`, `disc`, `album`, `album_artist`,
  `total_discs`, `year`).
* `AudioBook.merge`, `parse_file` (from `book.rs`), `parse_file_lib`
  (the earlier revision in `lib.rs`) and `parse_book` are translated
  statement by statement from the Rust source.
* The filesystem is abstracted: a directory listing is a
  `List RawEntry`, each entry either unreadable or a `DirEntry` with a
  file-type answer and the tag-read outcome at its path.
* The final track sort in `parse_book` calls `im::Vector::sort_by` with
  the comparator `track1.track.cmp(&track2.track)`; the crate's sort
  algorithm is outside this repository, so `sortTracks` is modelled from
  the spec as a stable sort by `track` (insertion sort).
* The repository has no tree walker; `walk` is modelled from the spec
  (section 4.3).
-/

/-- One audio segment's metadata, mirroring `Track` in `book.rs`. -/
structure Track where
  title : String
  reader : Finset String
  track : Nat
  disc : Option Nat
deriving DecidableEq

/-- The aggregate book record, mirroring `AudioBook` in `book.rs`
(and the identical `Book` in `lib.rs`). -/
structure AudioBook where
  title : String
  author : Finset String
  reader : Finset String
  tracks : List Track
  total_tracks : Nat
  discs : Option Nat
  year : Option Int
deriving DecidableEq

/-- The error values produced by the code (`eyre!` reports).  The three
conflict constructors carry both conflicting values, as the formatted
messages in `AudioBook::merge` do. -/
inductive Err where
  | cantParse (msg : String)
  | noTitle
  | noArtist
  | noTrack
  | noAlbum
  | ioError (msg : String)
  | titleConflict (l r : String)
  | discConflict (l r : Option Nat)
  | yearConflict (l r : Option Int)
deriving DecidableEq

/-- The id3 tag interface consumed by `parse_file`: each accessor of the
external `id3::Tag` becomes a field. -/
structure Tag where
  title : Option String
  artists : Option (List String)
  track : Option Nat
  disc : Option Nat
  album : Option String
  album_artist : Option String
  total_discs : Option Nat
  year : Option Int
deriving DecidableEq

/-- `AudioBook::merge` from `book.rs` lines 173-224: propagate a failed
input, then check `title`, compute the combinable fields, then check
`discs`, then `year`. -/
def AudioBook.merge (lhs rhs : Except Err AudioBook) : Except Err AudioBook :=
  match lhs with
  | .error e => .error e
  | .ok left_book =>
    match rhs with
    | .error e => .error e
    | .ok right_book =>
      if left_book.title = right_book.title then
        let author := left_book.author ∪ right_book.author
        let reader := left_book.reader ∪ right_book.reader
        let tracks := left_book.tracks ++ right_book.tracks
        let total_tracks := left_book.total_tracks + right_book.total_tracks
        if left_book.discs = right_book.discs then
          if left_book.year = right_book.year then
            .ok ⟨left_book.title, author, reader, tracks, total_tracks,
                 left_book.discs, left_book.year⟩
          else
            .error (.yearConflict left_book.year right_book.year)
        else
          .error (.discConflict left_book.discs right_book.discs)
      else
        .error (.titleConflict left_book.title right_book.title)

/-- `parse_file` from `book.rs` lines 9-53.  The argument is the outcome
of `Tag::read_from_path` at the file's path.  Field checks happen in
source order: track title, artists, track number, then the album title;
the book title is the album title and the author set is the singleton
`album_artist` defaulted to the empty string. -/
def parse_file (read : Except String Tag) : Except Err AudioBook :=
  match read with
  | .error e => .error (.cantParse e)
  | .ok tag =>
    match tag.title with
    | none => .error .noTitle
    | some ti =>
      match tag.artists with
      | none => .error .noArtist
      | some ar =>
        match tag.track with
        | none => .error .noTrack
        | some tr =>
          let track : Track := ⟨ti, ar.toFinset, tr, tag.disc⟩
          match tag.album with
          | none => .error .noAlbum
          | some al =>
            .ok ⟨al, {tag.album_artist.getD ""}, track.reader, [track], 1,
                 tag.total_discs, tag.year⟩

/-- `parse_file` from `lib.rs` lines 9-45 (the earlier revision): same
field checks for title, artists and track number, but the book title is
the TRACK title and the album is never read (no failure on a missing
album). -/
def parse_file_lib (read : Except String Tag) : Except Err AudioBook :=
  match read with
  | .error e => .error (.cantParse e)
  | .ok tag =>
    match tag.title with
    | none => .error .noTitle
    | some ti =>
      match tag.artists with
      | none => .error .noArtist
      | some ar =>
        match tag.track with
        | none => .error .noTrack
        | some tr =>
          let track : Track := ⟨ti, ar.toFinset, tr, tag.disc⟩
          .ok ⟨track.title, {tag.album_artist.getD ""}, track.reader,
               [track], 1, tag.total_discs, tag.year⟩

instance {ε α : Type _} [DecidableEq ε] [DecidableEq α] : DecidableEq (Except ε α) := fun
  | .ok a, .ok b =>
    if h : a = b then .isTrue (by rw [h]) else .isFalse (by intro hc; cases hc; exact h rfl)
  | .error e, .error f =>
    if h : e = f then .isTrue (by rw [h]) else .isFalse (by intro hc; cases hc; exact h rfl)
  | .ok _, .error _ => .isFalse (by intro hc; cases hc)
  | .error _, .ok _ => .isFalse (by intro hc; cases hc)

/-- A directory entry once `read_dir` has yielded it successfully:
`fileType` is the answer of `DirEntry::file_type` (`none` when that call
errors, otherwise whether the entry is a regular file), and `content` is
the outcome of reading the tags at the entry's path. -/
structure DirEntry where
  fileType : Option Bool
  content : Except String Tag
deriving DecidableEq

/-- One item produced by iterating `read_dir`: either an I/O error
(logged and skipped) or a `DirEntry`. -/
inductive RawEntry where
  | err (msg : String)
  | ok (entry : DirEntry)
deriving DecidableEq

/-- `Iterator::reduce`: fold the tail onto the head, `none` on an empty
list. -/
def listReduce (f : α → α → α) : List α → Option α
  | [] => none
  | x :: xs => some (xs.foldl f x)

/-- The ordering the code passes to `sort_by`:
`track1.track.cmp(&track2.track)`. -/
def Track.le (t1 t2 : Track) : Prop := t1.track ≤ t2.track

instance : DecidableRel Track.le := fun t1 t2 => Nat.decLe t1.track t2.track

instance : IsTotal Track Track.le := ⟨fun t1 t2 => Nat.le_total t1.track t2.track⟩

instance : IsTrans Track Track.le := ⟨fun _ _ _ h1 h2 => Nat.le_trans h1 h2⟩

/-- Modelled from the spec: the final sort of `parse_book` calls
`im::Vector::sort_by` comparing track numbers; the external crate's
algorithm is not part of this repository, and the spec (4.2 step 7)
specifies a stable sort ascending by track number, which insertion sort
is. -/
def sortTracks (l : List Track) : List Track := l.insertionSort Track.le

/-- `parse_book` from `book.rs` lines 55-104: on a listing failure wrap
the I/O error; otherwise keep readable entries, keep regular files, read
each file's tags through `parse_file`, drop the failures, wrap the
fragments in `Ok` and reduce them through `AudioBook::merge`; `None`
when there was no fragment, otherwise the merged result with its tracks
sorted by track number. -/
def parse_book (listing : Except String (List RawEntry)) :
    Option (Except Err AudioBook) :=
  match listing with
  | .error e => some (.error (.ioError e))
  | .ok entries =>
    let readable := entries.filterMap fun r =>
      match r with
      | .err _ => none
      | .ok d => some d
    let files := readable.filter fun d => d.fileType == some true
    let parsed := files.map fun d => parse_file d.content
    let fragments := parsed.filterMap Except.toOption
    match listReduce AudioBook.merge (fragments.map Except.ok) with
    | none => none
    | some res =>
      some (res.map fun book => { book with tracks := sortTracks book.tracks })

/-- The fragment a single listing item contributes, if any: a readable
regular file whose tags parse. -/
def fragmentOf : RawEntry → Option AudioBook
  | .err _ => none
  | .ok d => if d.fileType = some true then (parse_file d.content).toOption else none

/-- The usable fragments of a directory listing, in enumeration order. -/
def usableFragments (entries : List RawEntry) : List AudioBook :=
  entries.filterMap fragmentOf

/-- The fold-then-sort of `parse_book`, expressed directly on a fragment
list. -/
def aggregate (l : List AudioBook) : Option (Except Err AudioBook) :=
  match listReduce AudioBook.merge (l.map Except.ok) with
  | none => none
  | some res =>
    some (res.map fun book => { book with tracks := sortTracks book.tracks })

/-- A directory tree: the directory's own listing outcome together with
its immediate subdirectories. -/
inductive FsTree where
  | node (listing : Except String (List RawEntry)) (subs : List FsTree)

mutual

/-- Modelled from the spec (4.3): the repository contains no tree
walker.  `walk` aggregates the directory itself (an unreadable listing
is skipped non-fatally and its recursion not entered), then concatenates
the subdirectories' sequences. -/
def walk : FsTree → List (Except Err AudioBook)
  | .node listing subs =>
    match listing with
    | .error _ => []
    | .ok entries => (parse_book (.ok entries)).toList ++ walkList subs

/-- `walk` over a list of sibling subtrees, concatenating in order. -/
def walkList : List FsTree → List (Except Err AudioBook)
  | [] => []
  | t :: ts => walk t ++ walkList ts

end

mutual

/-- The listings of the directories `walk` actually aggregates, in visit
order: a directory with an unreadable listing contributes nothing and
its subtree is not entered. -/
def visited : FsTree → List (List RawEntry)
  | .node listing subs =>
    match listing with
    | .error _ => []
    | .ok entries => entries :: visitedList subs

/-- `visited` over a list of sibling subtrees. -/
def visitedList : List FsTree → List (List RawEntry)
  | [] => []
  | t :: ts => visited t ++ visitedList ts

end

/-- Union of the author sets of a fragment list. -/
def unionAuthors (l : List AudioBook) : Finset String :=
  l.foldr (fun x s => x.author ∪ s) ∅

/-- Union of the reader (narrator) sets of a fragment list. -/
def unionReaders (l : List AudioBook) : Finset String :=
  l.foldr (fun x s => x.reader ∪ s) ∅

/-- Concatenation of the track lists of a fragment list, in order. -/
def allTracks (l : List AudioBook) : List Track :=
  l.flatMap AudioBook.tracks

/-- Sum of the track counts of a fragment list. -/
def sumTotals (l : List AudioBook) : Nat :=
  (l.map AudioBook.total_tracks).sum

/-- The book a successful fold of `l` onto `b` produces. -/
def combineAll (b : AudioBook) (l : List AudioBook) : AudioBook :=
  ⟨b.title, b.author ∪ unionAuthors l, b.reader ∪ unionReaders l,
   b.tracks ++ allTracks l, b.total_tracks + sumTotals l, b.discs, b.year⟩

/-- Rewrite a track's disc number (used to state that the disc number is
not part of the sort key). -/
def setDisc (f : Track → Option Nat) (t : Track) : Track :=
  { t with disc := f t }

/-! ### Helper lemmas -/

/-- A failed left input short-circuits every further fold step. -/
theorem foldl_merge_error (e : Err) :
    ∀ l : List (Except Err AudioBook), l.foldl AudioBook.merge (.error e) = .error e
  | [] => rfl
  | _ :: xs => foldl_merge_error e xs

/-- Inversion of a successful pairwise merge. -/
theorem merge_ok_inv {a b c : AudioBook}
    (h : AudioBook.merge (.ok a) (.ok b) = .ok c) :
    a.title = b.title ∧ a.discs = b.discs ∧ a.year = b.year ∧
    c = ⟨a.title, a.author ∪ b.author, a.reader ∪ b.reader, a.tracks ++ b.tracks,
         a.total_tracks + b.total_tracks, a.discs, a.year⟩ := by
  unfold AudioBook.merge at h
  dsimp only at h
  split_ifs at h with h1 h2 h3
  exact ⟨h1, h2, h3, by cases h; rfl⟩

/-! ### C1, C2, C3 -/

/-- C1: for two successful fragments with equal title, discs and year,
`merge` succeeds and returns the union of the author sets, the union of
the reader sets, the concatenation of the track lists, the sum of the
track counts, and the shared title, discs and year. -/
theorem merge_combines_on_matching_fields (a b : AudioBook)
    (ht : a.title = b.title) (hd : a.discs = b.discs) (hy : a.year = b.year) :
    AudioBook.merge (.ok a) (.ok b) =
      .ok ⟨a.title, a.author ∪ b.author, a.reader ∪ b.reader,
           a.tracks ++ b.tracks, a.total_tracks + b.total_tracks,
           a.discs, a.year⟩ := by
  simp [AudioBook.merge, ht, hd, hy]

/-- Witness for C1 at concrete books. -/
theorem merge_combines_on_matching_fields_witness :
    AudioBook.merge
      (.ok ⟨"b", {"x"}, {"r"}, [⟨"t1", {"r"}, 1, none⟩], 1, some 2, some 1999⟩)
      (.ok ⟨"b", {"y"}, {"s"}, [⟨"t2", {"s"}, 2, none⟩], 1, some 2, some 1999⟩) =
      .ok ⟨"b", {"x"} ∪ {"y"}, ({"r"} : Finset String) ∪ {"s"},
           [⟨"t1", {"r"}, 1, none⟩] ++ [⟨"t2", {"s"}, 2, none⟩], 1 + 1,
           some 2, some 1999⟩ :=
  merge_combines_on_matching_fields _ _ rfl rfl rfl

/-- C2: the must-match fields are checked in the order title, discs,
year, and the first unequal field decides the failure, which carries
both conflicting values. -/
theorem merge_conflict_order (a b : AudioBook) :
    (a.title ≠ b.title →
      AudioBook.merge (.ok a) (.ok b) = .error (.titleConflict a.title b.title)) ∧
    (a.title = b.title → a.discs ≠ b.discs →
      AudioBook.merge (.ok a) (.ok b) = .error (.discConflict a.discs b.discs)) ∧
    (a.title = b.title → a.discs = b.discs → a.year ≠ b.year →
      AudioBook.merge (.ok a) (.ok b) = .error (.yearConflict a.year b.year)) := by
  refine ⟨fun h1 => ?_, fun h1 h2 => ?_, fun h1 h2 h3 => ?_⟩ <;>
    simp [AudioBook.merge, *]

/-- Witness for C2: each conflict kind at concrete books. -/
theorem merge_conflict_order_witness :
    (AudioBook.merge
        (.ok ⟨"a", ∅, ∅, [], 0, some 1, some 2000⟩)
        (.ok ⟨"b", ∅, ∅, [], 0, some 9, some 2024⟩) =
      .error (.titleConflict "a" "b")) ∧
    (AudioBook.merge
        (.ok ⟨"a", ∅, ∅, [], 0, some 1, some 2000⟩)
        (.ok ⟨"a", ∅, ∅, [], 0, some 9, some 2024⟩) =
      .error (.discConflict (some 1) (some 9))) ∧
    (AudioBook.merge
        (.ok ⟨"a", ∅, ∅, [], 0, some 1, some 2000⟩)
        (.ok ⟨"a", ∅, ∅, [], 0, some 1, some 2024⟩) =
      .error (.yearConflict (some 2000) (some 2024))) :=
  ⟨(merge_conflict_order _ _).1 (by decide),
   (merge_conflict_order _ _).2.1 rfl (by decide),
   (merge_conflict_order _ _).2.2 rfl rfl (by decide)⟩

/-- C3: a failed left input propagates unchanged without inspecting the
right input; when both fail the left failure wins; and a failed
accumulator passes through any further fold steps unchanged. -/
theorem merge_propagates_first_failure (e : Err) (x : Except Err AudioBook) :
    AudioBook.merge (.error e) x = .error e ∧
    (∀ f : Err, AudioBook.merge (.error e) (.error f) = .error e) ∧
    (∀ l : List (Except Err AudioBook),
      l.foldl AudioBook.merge (.error e) = .error e) :=
  ⟨rfl, fun _ => rfl, foldl_merge_error e⟩

/-! ### C9 -/

/-- C9: when the tag lacks an album-artist field, `parse_file` yields a
fragment whose author set is the singleton containing the empty string
(not the empty set), and the empty-string author survives set union
through a successful merge. -/
theorem parse_file_empty_album_artist (tag : Tag) (b : AudioBook)
    (h1 : tag.album_artist = none) (h2 : parse_file (.ok tag) = .ok b) :
    b.author = {""} ∧ b.author ≠ ∅ ∧
    ∀ c r, AudioBook.merge (.ok b) (.ok c) = .ok r → "" ∈ r.author := by
  have hb : b.author = {""} := by
    obtain ⟨ti, ar, tr, d, al, aa, td, y⟩ := tag
    dsimp only at h1
    subst h1
    cases ti <;> cases ar <;> cases tr <;> cases al <;>
      simp only [parse_file] at h2 <;> (cases h2; try rfl)
  refine ⟨hb, by simp [hb], fun c r hr => ?_⟩
  obtain ⟨-, -, -, rfl⟩ := merge_ok_inv hr
  simp [hb]

/-- Witness for C9 at a concrete tag and merge. -/
theorem parse_file_empty_album_artist_witness :
    (AudioBook.author ⟨"A", {""}, {"x"}, [⟨"T", {"x"}, 1, none⟩], 1, none, none⟩
      = {""}) ∧
    "" ∈ AudioBook.author
      ⟨"A", {""} ∪ {""}, {"x"} ∪ {"x"},
       [⟨"T", {"x"}, 1, none⟩, ⟨"T", {"x"}, 1, none⟩], 2, none, none⟩ := by
  have h := parse_file_empty_album_artist
    ⟨some "T", some ["x"], some 1, none, some "A", none, none, none⟩
    ⟨"A", {""}, {"x"}, [⟨"T", {"x"}, 1, none⟩], 1, none, none⟩
    rfl (by decide)
  exact ⟨h.1, h.2.2 ⟨"A", {""}, {"x"}, [⟨"T", {"x"}, 1, none⟩], 1, none, none⟩
    _ (by decide)⟩

/-! ### C8 -/

/-- C8 counterexample: on a tag whose track title is "T" and album is
"A", the `lib.rs` revision titles the book "T" while the `book.rs`
revision titles it "A"; the two revisions are not equivalent. -/
theorem parse_file_revisions_differ :
    parse_file_lib
      (.ok ⟨some "T", some ["x"], some 1, none, some "A", none, none, none⟩) ≠
    parse_file
      (.ok ⟨some "T", some ["x"], some 1, none, some "A", none, none, none⟩) := by
  decide

/-- C8 amended: both revisions fail identically on a read failure and on
a missing title, artist list or track number, and agree on every field
except the book title; `lib.rs` uses the track title and never reads the
album, while `book.rs` uses the album title and fails with a
missing-album error when the album is absent. -/
theorem parse_file_revisions_relation (read : Except String Tag) :
    (∀ e, parse_file_lib read = .error e → parse_file read = .error e) ∧
    (∀ tag b, read = .ok tag → parse_file_lib read = .ok b →
      tag.title = some b.title ∧
      (∀ al, tag.album = some al → parse_file read = .ok { b with title := al }) ∧
      (tag.album = none → parse_file read = .error .noAlbum)) := by
  cases read with
  | error s => exact ⟨fun e he => by simpa [parse_file_lib, parse_file] using he,
      fun tag b htag => by cases htag⟩
  | ok tag =>
    obtain ⟨ti, ar, tr, d, al, aa, td, y⟩ := tag
    cases ti <;> cases ar <;> cases tr <;> cases al <;>
      simp [parse_file_lib, parse_file]

/-- Witness for the amended C8 at concrete tags: with an album present
`book.rs` titles the book by the album; with the album absent it fails
while `lib.rs` does not. -/
theorem parse_file_revisions_relation_witness :
    parse_file (.ok ⟨some "T", some ["x"], some 1, none, some "A", none, none, none⟩) =
      .ok ⟨"A", {""}, {"x"}, [⟨"T", {"x"}, 1, none⟩], 1, none, none⟩ ∧
    parse_file (.ok ⟨some "T", some ["x"], some 1, none, none, none, none, none⟩) =
      .error .noAlbum := by
  constructor
  · have h := ((parse_file_revisions_relation
        (.ok ⟨some "T", some ["x"], some 1, none, some "A", none, none, none⟩)).2
        ⟨some "T", some ["x"], some 1, none, some "A", none, none, none⟩
        ⟨"T", {""}, {"x"}, [⟨"T", {"x"}, 1, none⟩], 1, none, none⟩
        rfl (by decide)).2.1 "A" rfl
    convert h using 2
  · exact ((parse_file_revisions_relation
        (.ok ⟨some "T", some ["x"], some 1, none, none, none, none, none⟩)).2
        ⟨some "T", some ["x"], some 1, none, none, none, none, none⟩
        ⟨"T", {""}, {"x"}, [⟨"T", {"x"}, 1, none⟩], 1, none, none⟩
        rfl (by decide)).2.2 rfl

/-- Helper: a successful merge combines the fields (shared form of C1,
usable by other proofs). -/
theorem merge_ok_of_match {a b : AudioBook}
    (ht : a.title = b.title) (hd : a.discs = b.discs) (hy : a.year = b.year) :
    AudioBook.merge (.ok a) (.ok b) =
      .ok ⟨a.title, a.author ∪ b.author, a.reader ∪ b.reader,
           a.tracks ++ b.tracks, a.total_tracks + b.total_tracks,
           a.discs, a.year⟩ := by
  simp [AudioBook.merge, ht, hd, hy]

theorem unionAuthors_cons (a : AudioBook) (l : List AudioBook) :
    unionAuthors (a :: l) = a.author ∪ unionAuthors l := rfl

theorem unionReaders_cons (a : AudioBook) (l : List AudioBook) :
    unionReaders (a :: l) = a.reader ∪ unionReaders l := rfl

theorem allTracks_cons (a : AudioBook) (l : List AudioBook) :
    allTracks (a :: l) = a.tracks ++ allTracks l := rfl

theorem sumTotals_cons (a : AudioBook) (l : List AudioBook) :
    sumTotals (a :: l) = a.total_tracks + sumTotals l := by
  simp [sumTotals]

/-- Folding fragments that agree with `b` on the must-match fields onto
`b` succeeds and combines all combinable fields. -/
theorem foldl_merge_ok (l : List AudioBook) :
    ∀ b : AudioBook,
      (∀ x ∈ l, x.title = b.title ∧ x.discs = b.discs ∧ x.year = b.year) →
      (l.map Except.ok).foldl AudioBook.merge (.ok b) = .ok (combineAll b l) := by
  induction l with
  | nil =>
    intro b _
    simp [combineAll, unionAuthors, unionReaders, allTracks, sumTotals]
  | cons x xs ih =>
    intro b hmatch
    have hx := hmatch x (List.mem_cons_self x xs)
    have step := merge_ok_of_match (a := b) (b := x) hx.1.symm hx.2.1.symm hx.2.2.symm
    rw [List.map_cons, List.foldl_cons, step]
    set b2 : AudioBook := ⟨b.title, b.author ∪ x.author, b.reader ∪ x.reader,
        b.tracks ++ x.tracks, b.total_tracks + x.total_tracks, b.discs, b.year⟩ with hb2
    have hxs : ∀ y ∈ xs, y.title = b2.title ∧ y.discs = b2.discs ∧ y.year = b2.year := by
      intro y hy
      have h := hmatch y (List.mem_cons_of_mem x hy)
      exact ⟨h.1, h.2.1, h.2.2⟩
    rw [ih b2 hxs]
    simp [combineAll, hb2, unionAuthors_cons, unionReaders_cons, allTracks_cons,
      sumTotals_cons, Finset.union_assoc, List.append_assoc, Nat.add_assoc]

/-- Inversion of a successful fold: whatever the inputs, a successful
fold concatenates the track lists and sums the track counts. -/
theorem foldl_merge_ok_inv (xs : List AudioBook) :
    ∀ acc b : AudioBook,
      (xs.map Except.ok).foldl AudioBook.merge (.ok acc) = .ok b →
      b.tracks = acc.tracks ++ allTracks xs ∧
      b.total_tracks = acc.total_tracks + sumTotals xs := by
  induction xs with
  | nil =>
    intro acc b h
    cases h
    simp [allTracks, sumTotals]
  | cons x xs ih =>
    intro acc b h
    rw [List.map_cons, List.foldl_cons] at h
    cases hm : AudioBook.merge (.ok acc) (.ok x) with
    | error e =>
      rw [hm, foldl_merge_error] at h
      cases h
    | ok acc2 =>
      rw [hm] at h
      obtain ⟨h1, h2⟩ := ih acc2 b h
      obtain ⟨-, -, -, rfl⟩ := merge_ok_inv hm
      exact ⟨by simp [h1, allTracks_cons, List.append_assoc],
             by simp [h2, sumTotals_cons, Nat.add_assoc]⟩

/-- `unionAuthors` is invariant under permutation. -/
theorem unionAuthors_perm {l1 l2 : List AudioBook} (h : l1.Perm l2) :
    unionAuthors l1 = unionAuthors l2 := by
  induction h with
  | nil => rfl
  | cons x h ih => rw [unionAuthors_cons, unionAuthors_cons, ih]
  | swap x y l =>
    rw [unionAuthors_cons, unionAuthors_cons, unionAuthors_cons, unionAuthors_cons,
      Finset.union_left_comm]
  | trans h1 h2 ih1 ih2 => rw [ih1, ih2]

/-- `unionReaders` is invariant under permutation. -/
theorem unionReaders_perm {l1 l2 : List AudioBook} (h : l1.Perm l2) :
    unionReaders l1 = unionReaders l2 := by
  induction h with
  | nil => rfl
  | cons x h ih => rw [unionReaders_cons, unionReaders_cons, ih]
  | swap x y l =>
    rw [unionReaders_cons, unionReaders_cons, unionReaders_cons, unionReaders_cons,
      Finset.union_left_comm]
  | trans h1 h2 ih1 ih2 => rw [ih1, ih2]

/-- `sumTotals` is invariant under permutation. -/
theorem sumTotals_perm {l1 l2 : List AudioBook} (h : l1.Perm l2) :
    sumTotals l1 = sumTotals l2 :=
  (h.map AudioBook.total_tracks).sum_eq

/-- `allTracks` maps permutations to permutations. -/
theorem allTracks_perm {l1 l2 : List AudioBook} (h : l1.Perm l2) :
    (allTracks l1).Perm (allTracks l2) :=
  h.flatMap_right AudioBook.tracks

/-- The sorted track list is a permutation of the input. -/
theorem sortTracks_perm (l : List Track) : (sortTracks l).Perm l :=
  List.perm_insertionSort Track.le l

/-- The sorted track list is sorted by track number. -/
theorem sortTracks_sorted (l : List Track) : (sortTracks l).Sorted Track.le :=
  List.sorted_insertionSort Track.le l

/-- Inserting a track keeps the subsequence of any fixed track number
intact: the skipped prefix consists of strictly smaller track numbers. -/
theorem orderedInsert_filter_track (t : Track) (n : Nat) :
    ∀ l : List Track,
      (l.orderedInsert Track.le t).filter (fun u => decide (u.track = n)) =
        if t.track = n then
          t :: l.filter (fun u => decide (u.track = n))
        else
          l.filter (fun u => decide (u.track = n)) := by
  intro l
  induction l with
  | nil =>
    by_cases hn : t.track = n <;> simp [List.orderedInsert, hn, List.filter]
  | cons b bs ih =>
    by_cases hle : Track.le t b
    · rw [List.orderedInsert, if_pos hle]
      by_cases hn : t.track = n <;> simp [hn, List.filter]
    · rw [List.orderedInsert, if_neg hle]
      have hblt : b.track < t.track := Nat.lt_of_not_le hle
      by_cases hn : t.track = n
      · have hbn : ¬ b.track = n := by
          intro hb
          exact Nat.lt_irrefl _ (hb ▸ hn ▸ hblt)
        simp [List.filter, hbn, ih, hn]
      · by_cases hbn : b.track = n <;> simp [List.filter, hbn, ih, hn]

/-- Stability of the final sort: for each track number the subsequence
of tracks carrying it is exactly the input's subsequence, in order. -/
theorem sortTracks_filter_track (n : Nat) :
    ∀ l : List Track,
      (sortTracks l).filter (fun u => decide (u.track = n)) =
        l.filter (fun u => decide (u.track = n)) := by
  intro l
  induction l with
  | nil => rfl
  | cons t ts ih =>
    show ((sortTracks ts).orderedInsert Track.le t).filter _ = _
    rw [orderedInsert_filter_track]
    by_cases hn : t.track = n <;> simp [hn, ih, List.filter]

/-- The disc number is not part of the sort key: rewriting disc numbers
commutes with the final sort. -/
theorem sortTracks_map_setDisc (f : Track → Option Nat) (l : List Track) :
    sortTracks (l.map (setDisc f)) = (sortTracks l).map (setDisc f) :=
  (List.map_insertionSort Track.le Track.le (setDisc f) l
    (fun _ _ _ _ => Iff.rfl)).symm

/-- A sorted run whose track numbers are distinct is strictly sorted. -/
theorem sorted_strict_of_nodup {l : List Track}
    (hs : l.Sorted Track.le) (hn : (l.map Track.track).Nodup) :
    l.Sorted (fun a b : Track => a.track < b.track) := by
  have hne : l.Pairwise (fun a b : Track => a.track ≠ b.track) :=
    List.pairwise_map.mp hn
  exact (hs.and hne).imp fun h => Nat.lt_of_le_of_ne h.1 h.2

/-- Sorting two permuted track lists with pairwise-distinct track
numbers yields the same list. -/
theorem sortTracks_eq_of_perm_nodup {l1 l2 : List Track} (hp : l1.Perm l2)
    (hn : (l1.map Track.track).Nodup) : sortTracks l1 = sortTracks l2 := by
  haveI : IsAntisymm Track (fun a b : Track => a.track < b.track) :=
    ⟨fun a b h1 h2 => absurd (Nat.lt_trans h1 h2) (Nat.lt_irrefl _)⟩
  have hp12 : (sortTracks l1).Perm (sortTracks l2) :=
    ((sortTracks_perm l1).trans hp).trans (sortTracks_perm l2).symm
  have hn1 : ((sortTracks l1).map Track.track).Nodup :=
    (((sortTracks_perm l1).map Track.track).nodup_iff).mpr hn
  have hn2 : ((sortTracks l2).map Track.track).Nodup :=
    (((sortTracks_perm l2).map Track.track).nodup_iff).mpr
      ((hp.map Track.track).nodup_iff.mp hn)
  exact List.eq_of_perm_of_sorted hp12
    (sorted_strict_of_nodup (sortTracks_sorted l1) hn1)
    (sorted_strict_of_nodup (sortTracks_sorted l2) hn2)

/-- The staged entry pipeline of `parse_book` produces exactly the
usable fragments. -/
theorem pipeline_eq_usableFragments :
    ∀ es : List RawEntry,
      ((((es.filterMap fun r =>
            match r with
            | .err _ => none
            | .ok d => some d).filter fun d => d.fileType == some true).map
            fun d => parse_file d.content).filterMap Except.toOption) =
        usableFragments es := by
  intro es
  induction es with
  | nil => rfl
  | cons r rs ih =>
    cases r with
    | err m =>
      simpa [usableFragments, fragmentOf, List.filterMap_cons] using ih
    | ok d =>
      by_cases hft : d.fileType = some true <;>
        cases hpo : (parse_file d.content).toOption <;>
          simp [usableFragments, fragmentOf, hft, hpo, List.filterMap_cons,
            List.filter_cons, ih]

/-- `parse_book` on a successful listing is the fold-then-sort of the
listing's usable fragments. -/
theorem parse_book_ok_eq (entries : List RawEntry) :
    parse_book (.ok entries) = aggregate (usableFragments entries) := by
  simp only [parse_book, aggregate]
  rw [pipeline_eq_usableFragments entries]

/-- `aggregate` yields no book exactly on the empty fragment list. -/
theorem aggregate_none_iff (l : List AudioBook) :
    aggregate l = none ↔ l = [] := by
  cases l with
  | nil => simp [aggregate, listReduce]
  | cons x xs => simp [aggregate, listReduce]

/-- Inversion of a successful `aggregate`. -/
theorem aggregate_ok_inv {l : List AudioBook} {b : AudioBook}
    (h : aggregate l = some (.ok b)) :
    ∃ x xs b0, l = x :: xs ∧
      (xs.map Except.ok).foldl AudioBook.merge (.ok x) = .ok b0 ∧
      b = { b0 with tracks := sortTracks b0.tracks } := by
  cases l with
  | nil => cases h
  | cons x xs =>
    simp only [aggregate, listReduce, List.map_cons] at h
    cases hf : (xs.map Except.ok).foldl AudioBook.merge (.ok x) with
    | error e =>
      rw [hf] at h
      cases h
    | ok b0 =>
      rw [hf] at h
      simp only [Except.map, Option.some.injEq] at h
      cases h
      exact ⟨x, xs, b0, rfl, hf, rfl⟩

/-- A fragment produced by `parse_file` carries exactly one track and a
count of one. -/
theorem parse_file_ok_shape {read : Except String Tag} {b : AudioBook}
    (h : parse_file read = .ok b) :
    b.total_tracks = 1 ∧ b.tracks.length = 1 := by
  cases read with
  | error e => cases h
  | ok tag =>
    obtain ⟨ti, ar, tr, d, al, aa, td, y⟩ := tag
    cases ti <;> cases ar <;> cases tr <;> cases al <;>
      simp only [parse_file] at h <;> (cases h; try exact ⟨rfl, rfl⟩)

/-- Every usable fragment of a listing is a `parse_file` success, hence
carries one track and a count of one. -/
theorem mem_usableFragments_shape {entries : List RawEntry} {x : AudioBook}
    (h : x ∈ usableFragments entries) :
    x.total_tracks = 1 ∧ x.tracks.length = 1 := by
  obtain ⟨r, -, hfr⟩ := List.mem_filterMap.mp h
  cases r with
  | err m => cases hfr
  | ok d =>
    unfold fragmentOf at hfr
    dsimp only at hfr
    split_ifs at hfr
    cases hpc : parse_file d.content with
    | error e => rw [hpc] at hfr; cases hfr
    | ok y =>
      rw [hpc] at hfr
      cases hfr
      exact parse_file_ok_shape hpc

/-- When every fragment's count equals its track-list length, the summed
count equals the concatenated length. -/
theorem sumTotals_eq_length :
    ∀ l : List AudioBook, (∀ x ∈ l, x.total_tracks = x.tracks.length) →
      sumTotals l = (allTracks l).length := by
  intro l
  induction l with
  | nil => intro _; rfl
  | cons x xs ih =>
    intro h
    rw [sumTotals_cons, allTracks_cons, List.length_append,
      h x (List.mem_cons_self x xs), ih fun z hz => h z (List.mem_cons_of_mem x hz)]

/-! ### C4, C6, C10 -/

/-- C4: whenever `parse_book` returns a Book, its tracks are sorted
non-decreasingly by track number; the sort is stable (for each track
number, the subsequence of tracks carrying it equals the fold-arrival
subsequence); and the disc number is not part of the sort key (rewriting
disc numbers commutes with the sort). -/
theorem parse_book_tracks_sorted_stable (entries : List RawEntry) (b : AudioBook)
    (h : parse_book (.ok entries) = some (.ok b)) :
    b.tracks.Sorted Track.le ∧
    (∀ n, b.tracks.filter (fun u => decide (u.track = n)) =
      (allTracks (usableFragments entries)).filter (fun u => decide (u.track = n))) ∧
    (∀ (l : List Track) (f : Track → Option Nat),
      sortTracks (l.map (setDisc f)) = (sortTracks l).map (setDisc f)) := by
  rw [parse_book_ok_eq] at h
  obtain ⟨x, xs, b0, heq, hf, rfl⟩ := aggregate_ok_inv h
  obtain ⟨htr, -⟩ := foldl_merge_ok_inv xs x b0 hf
  refine ⟨sortTracks_sorted _, fun n => ?_, fun l f => sortTracks_map_setDisc f l⟩
  show (sortTracks b0.tracks).filter _ = _
  rw [sortTracks_filter_track, htr, heq, allTracks_cons]

/-- Witness for C4 at a two-file directory listed out of track order. -/
theorem parse_book_tracks_sorted_stable_witness :
    List.Sorted Track.le [⟨"t1", {"x"}, 1, none⟩, ⟨"t2", {"x"}, 2, none⟩] ∧
    List.filter (fun u => decide (u.track = 1))
        [Track.mk "t1" {"x"} 1 none, Track.mk "t2" {"x"} 2 none] =
      (allTracks (usableFragments
        [RawEntry.ok ⟨some true,
          .ok ⟨some "t2", some ["x"], some 2, none, some "A", none, none, none⟩⟩,
         RawEntry.ok ⟨some true,
          .ok ⟨some "t1", some ["x"], some 1, none, some "A", none, none, none⟩⟩])).filter
        (fun u => decide (u.track = 1)) ∧
    sortTracks ([⟨"t2", {"x"}, 2, some 1⟩].map (setDisc fun _ => none)) =
      (sortTracks [⟨"t2", {"x"}, 2, some 1⟩]).map (setDisc fun _ => none) := by
  have h := parse_book_tracks_sorted_stable
    [RawEntry.ok ⟨some true,
      .ok ⟨some "t2", some ["x"], some 2, none, some "A", none, none, none⟩⟩,
     RawEntry.ok ⟨some true,
      .ok ⟨some "t1", some ["x"], some 1, none, some "A", none, none, none⟩⟩]
    ⟨"A", {""}, {"x"}, [⟨"t1", {"x"}, 1, none⟩, ⟨"t2", {"x"}, 2, none⟩], 2, none, none⟩
    (by decide)
  exact ⟨h.1, h.2.1 1, h.2.2 [⟨"t2", {"x"}, 2, some 1⟩] (fun _ => none)⟩

/-- C6: on a successfully listed directory, `parse_book` returns absence
exactly when no file yields a usable fragment, and any entry that
contributes no fragment (unreadable entry, non-file, or a file whose
extraction fails) can be dropped from the listing without changing the
result. -/
theorem parse_book_absence_and_skip (entries : List RawEntry) :
    (parse_book (.ok entries) = none ↔ usableFragments entries = []) ∧
    (∀ pre post r, fragmentOf r = none →
      parse_book (.ok (pre ++ r :: post)) = parse_book (.ok (pre ++ post))) := by
  constructor
  · rw [parse_book_ok_eq]
    exact aggregate_none_iff _
  · intro pre post r hr
    rw [parse_book_ok_eq, parse_book_ok_eq]
    have husable : usableFragments (pre ++ r :: post) = usableFragments (pre ++ post) := by
      simp [usableFragments, List.filterMap_append, List.filterMap_cons, hr]
    rw [husable]

/-- Witness for C6: an unreadable-entry-only directory is absent, and an
unreadable entry between parsable files can be dropped. -/
theorem parse_book_absence_and_skip_witness :
    (parse_book (.ok [RawEntry.err "boom"]) = none ↔
      usableFragments [RawEntry.err "boom"] = []) ∧
    parse_book (.ok
      ([RawEntry.ok ⟨some true,
          .ok ⟨some "t1", some ["x"], some 1, none, some "A", none, none, none⟩⟩] ++
        RawEntry.err "boom" :: [])) =
    parse_book (.ok
      ([RawEntry.ok ⟨some true,
          .ok ⟨some "t1", some ["x"], some 1, none, some "A", none, none, none⟩⟩] ++ [])) :=
  ⟨(parse_book_absence_and_skip [RawEntry.err "boom"]).1,
   (parse_book_absence_and_skip []).2
     [RawEntry.ok ⟨some true,
        .ok ⟨some "t1", some ["x"], some 1, none, some "A", none, none, none⟩⟩]
     [] (RawEntry.err "boom") rfl⟩

/-- C10: every Book satisfies `total_tracks = length tracks`:
`parse_file` establishes it, a successful `merge` preserves it, and
every successful `parse_book` result satisfies it. -/
theorem total_tracks_eq_length_invariant :
    (∀ read b, parse_file read = .ok b → b.total_tracks = b.tracks.length) ∧
    (∀ x y b, x.total_tracks = x.tracks.length → y.total_tracks = y.tracks.length →
      AudioBook.merge (.ok x) (.ok y) = .ok b → b.total_tracks = b.tracks.length) ∧
    (∀ listing b, parse_book listing = some (.ok b) →
      b.total_tracks = b.tracks.length) := by
  refine ⟨?_, ?_, ?_⟩
  · intro read b h
    obtain ⟨h1, h2⟩ := parse_file_ok_shape h
    rw [h1, h2]
  · intro x y b hx hy h
    obtain ⟨-, -, -, rfl⟩ := merge_ok_inv h
    simp [hx, hy]
  · intro listing b h
    cases listing with
    | error e => simp [parse_book] at h
    | ok entries =>
      rw [parse_book_ok_eq] at h
      obtain ⟨x, xs, b0, heq, hf, rfl⟩ := aggregate_ok_inv h
      obtain ⟨htr, hto⟩ := foldl_merge_ok_inv xs x b0 hf
      have hmem : ∀ z ∈ x :: xs, z.total_tracks = z.tracks.length := by
        intro z hz
        have hzu : z ∈ usableFragments entries := by rw [heq]; exact hz
        obtain ⟨u1, u2⟩ := mem_usableFragments_shape hzu
        rw [u1, u2]
      show b0.total_tracks = (sortTracks b0.tracks).length
      rw [(sortTracks_perm b0.tracks).length_eq, hto, htr, List.length_append,
        hmem x (List.mem_cons_self x xs),
        sumTotals_eq_length xs fun z hz => hmem z (List.mem_cons_of_mem x hz)]

/-- Witness for C10 through a concrete one-file directory. -/
theorem total_tracks_eq_length_invariant_witness :
    AudioBook.total_tracks
        ⟨"A", {""}, {"x"}, [⟨"t1", {"x"}, 1, none⟩], 1, none, none⟩ =
      (AudioBook.tracks
        ⟨"A", {""}, {"x"}, [⟨"t1", {"x"}, 1, none⟩], 1, none, none⟩).length :=
  total_tracks_eq_length_invariant.2.2
    (.ok [RawEntry.ok ⟨some true,
      .ok ⟨some "t1", some ["x"], some 1, none, some "A", none, none, none⟩⟩])
    ⟨"A", {""}, {"x"}, [⟨"t1", {"x"}, 1, none⟩], 1, none, none⟩
    (by decide)

/-- Component-wise equality of books. -/
theorem AudioBook.ext' {u v : AudioBook} (h1 : u.title = v.title)
    (h2 : u.author = v.author) (h3 : u.reader = v.reader)
    (h4 : u.tracks = v.tracks) (h5 : u.total_tracks = v.total_tracks)
    (h6 : u.discs = v.discs) (h7 : u.year = v.year) : u = v := by
  cases u
  cases v
  simp only [AudioBook.mk.injEq]
  exact ⟨h1, h2, h3, h4, h5, h6, h7⟩

/-- `aggregate` on a nonempty list whose fold succeeds. -/
theorem aggregate_cons_ok {l : List AudioBook} {b c : AudioBook}
    (h : (l.map Except.ok).foldl AudioBook.merge (.ok b) = .ok c) :
    aggregate (b :: l) = some (.ok { c with tracks := sortTracks c.tracks }) := by
  simp [aggregate, listReduce, h, Except.map]

/-! ### C5 -/

/-- C5 counterexample: two fragments sharing title, discs, year and the
same track number 1 but with distinct track titles; both fold orders
succeed, yet the final results differ (the tracks sequences order the
tying tracks by arrival). -/
theorem aggregate_order_dependent_on_ties :
    aggregate
      [⟨"b", {"a1"}, {"r1"}, [⟨"x", {"r1"}, 1, none⟩], 1, none, none⟩,
       ⟨"b", {"a2"}, {"r2"}, [⟨"y", {"r2"}, 1, none⟩], 1, none, none⟩] =
      some (.ok ⟨"b", {"a1", "a2"}, {"r1", "r2"},
        [⟨"x", {"r1"}, 1, none⟩, ⟨"y", {"r2"}, 1, none⟩], 2, none, none⟩) ∧
    aggregate
      [⟨"b", {"a2"}, {"r2"}, [⟨"y", {"r2"}, 1, none⟩], 1, none, none⟩,
       ⟨"b", {"a1"}, {"r1"}, [⟨"x", {"r1"}, 1, none⟩], 1, none, none⟩] =
      some (.ok ⟨"b", {"a2", "a1"}, {"r2", "r1"},
        [⟨"y", {"r2"}, 1, none⟩, ⟨"x", {"r1"}, 1, none⟩], 2, none, none⟩) ∧
    aggregate
      [⟨"b", {"a1"}, {"r1"}, [⟨"x", {"r1"}, 1, none⟩], 1, none, none⟩,
       ⟨"b", {"a2"}, {"r2"}, [⟨"y", {"r2"}, 1, none⟩], 1, none, none⟩] ≠
    aggregate
      [⟨"b", {"a2"}, {"r2"}, [⟨"y", {"r2"}, 1, none⟩], 1, none, none⟩,
       ⟨"b", {"a1"}, {"r1"}, [⟨"x", {"r1"}, 1, none⟩], 1, none, none⟩] := by
  refine ⟨by decide, by decide, fun h => ?_⟩
  rw [show aggregate
      [⟨"b", {"a1"}, {"r1"}, [⟨"x", {"r1"}, 1, none⟩], 1, none, none⟩,
       ⟨"b", {"a2"}, {"r2"}, [⟨"y", {"r2"}, 1, none⟩], 1, none, none⟩] =
      some (.ok ⟨"b", {"a1", "a2"}, {"r1", "r2"},
        [⟨"x", {"r1"}, 1, none⟩, ⟨"y", {"r2"}, 1, none⟩], 2, none, none⟩) by decide,
    show aggregate
      [⟨"b", {"a2"}, {"r2"}, [⟨"y", {"r2"}, 1, none⟩], 1, none, none⟩,
       ⟨"b", {"a1"}, {"r1"}, [⟨"x", {"r1"}, 1, none⟩], 1, none, none⟩] =
      some (.ok ⟨"b", {"a2", "a1"}, {"r2", "r1"},
        [⟨"y", {"r2"}, 1, none⟩, ⟨"x", {"r1"}, 1, none⟩], 2, none, none⟩) by decide] at h
  simp only [Option.some.injEq, Except.ok.injEq] at h
  have htr := congrArg AudioBook.tracks h
  exact absurd htr (by decide)

/-- C5 amended: folding a multiset of fragments with pairwise-equal
title, discs and year succeeds in every enumeration order, and any two
orders agree on title, authors, narrators, total count, discs, year and
on the tracks as a multiset; the entire Book (tracks sequence included)
coincides whenever the fragments' track numbers are pairwise distinct
(with duplicated track numbers, ties may be ordered differently). -/
theorem aggregate_perm_invariant (x : AudioBook) (l1 l2 : List AudioBook)
    (hp : (x :: l1).Perm l2)
    (hm : ∀ a ∈ x :: l1, a.title = x.title ∧ a.discs = x.discs ∧ a.year = x.year) :
    ∃ b1 b2 : AudioBook,
      aggregate (x :: l1) = some (.ok b1) ∧
      aggregate l2 = some (.ok b2) ∧
      b1.title = b2.title ∧ b1.author = b2.author ∧ b1.reader = b2.reader ∧
      b1.total_tracks = b2.total_tracks ∧ b1.discs = b2.discs ∧ b1.year = b2.year ∧
      b1.tracks.Perm b2.tracks ∧
      (((allTracks (x :: l1)).map Track.track).Nodup → b1 = b2) := by
  cases l2 with
  | nil =>
    have hlen := hp.length_eq
    simp at hlen
  | cons y ys =>
    have hyx : y.title = x.title ∧ y.discs = x.discs ∧ y.year = x.year :=
      hm y (hp.mem_iff.mpr (List.mem_cons_self y ys))
    have hm2 : ∀ a ∈ y :: ys, a.title = y.title ∧ a.discs = y.discs ∧ a.year = y.year := by
      intro a ha
      have hax := hm a (hp.mem_iff.mpr ha)
      exact ⟨hax.1.trans hyx.1.symm, hax.2.1.trans hyx.2.1.symm,
             hax.2.2.trans hyx.2.2.symm⟩
    have hf1 := foldl_merge_ok l1 x fun a ha => hm a (List.mem_cons_of_mem x ha)
    have hf2 := foldl_merge_ok ys y fun a ha => hm2 a (List.mem_cons_of_mem y ha)
    have htitle : x.title = y.title := hyx.1.symm
    have hauthor : x.author ∪ unionAuthors l1 = y.author ∪ unionAuthors ys := by
      rw [← unionAuthors_cons, ← unionAuthors_cons]
      exact unionAuthors_perm hp
    have hreader : x.reader ∪ unionReaders l1 = y.reader ∪ unionReaders ys := by
      rw [← unionReaders_cons, ← unionReaders_cons]
      exact unionReaders_perm hp
    have htotal : x.total_tracks + sumTotals l1 = y.total_tracks + sumTotals ys := by
      rw [← sumTotals_cons, ← sumTotals_cons]
      exact sumTotals_perm hp
    have hdiscs : x.discs = y.discs := hyx.2.1.symm
    have hyear : x.year = y.year := hyx.2.2.symm
    have e1 : (combineAll x l1).tracks = allTracks (x :: l1) := (allTracks_cons x l1).symm
    have e2 : (combineAll y ys).tracks = allTracks (y :: ys) := (allTracks_cons y ys).symm
    have hJ : (allTracks (x :: l1)).Perm (allTracks (y :: ys)) := allTracks_perm hp
    have p1 : (sortTracks (combineAll x l1).tracks).Perm (allTracks (x :: l1)) := by
      rw [e1]
      exact sortTracks_perm _
    have p2 : (sortTracks (combineAll y ys).tracks).Perm (allTracks (y :: ys)) := by
      rw [e2]
      exact sortTracks_perm _
    refine ⟨{ combineAll x l1 with tracks := sortTracks (combineAll x l1).tracks },
            { combineAll y ys with tracks := sortTracks (combineAll y ys).tracks },
            aggregate_cons_ok hf1, aggregate_cons_ok hf2,
            htitle, hauthor, hreader, htotal, hdiscs, hyear,
            (p1.trans hJ).trans p2.symm, fun hnd => ?_⟩
    have hst : sortTracks (combineAll x l1).tracks = sortTracks (combineAll y ys).tracks := by
      rw [e1, e2]
      exact sortTracks_eq_of_perm_nodup hJ hnd
    exact AudioBook.ext' htitle hauthor hreader hst htotal hdiscs hyear

/-- Witness for the amended C5 at a concrete two-fragment multiset with
distinct track numbers. -/
theorem aggregate_perm_invariant_witness :
    ∃ b1 b2 : AudioBook,
      aggregate
        [⟨"b", {"a1"}, {"r1"}, [⟨"x", {"r1"}, 1, none⟩], 1, none, none⟩,
         ⟨"b", {"a2"}, {"r2"}, [⟨"y", {"r2"}, 2, none⟩], 1, none, none⟩] =
        some (.ok b1) ∧
      aggregate
        [⟨"b", {"a2"}, {"r2"}, [⟨"y", {"r2"}, 2, none⟩], 1, none, none⟩,
         ⟨"b", {"a1"}, {"r1"}, [⟨"x", {"r1"}, 1, none⟩], 1, none, none⟩] =
        some (.ok b2) ∧
      b1.title = b2.title ∧ b1.author = b2.author ∧ b1.reader = b2.reader ∧
      b1.total_tracks = b2.total_tracks ∧ b1.discs = b2.discs ∧ b1.year = b2.year ∧
      b1.tracks.Perm b2.tracks ∧
      (((allTracks
          [⟨"b", {"a1"}, {"r1"}, [⟨"x", {"r1"}, 1, none⟩], 1, none, none⟩,
           ⟨"b", {"a2"}, {"r2"}, [⟨"y", {"r2"}, 2, none⟩], 1, none, none⟩]).map
          Track.track).Nodup → b1 = b2) :=
  aggregate_perm_invariant
    ⟨"b", {"a1"}, {"r1"}, [⟨"x", {"r1"}, 1, none⟩], 1, none, none⟩
    [⟨"b", {"a2"}, {"r2"}, [⟨"y", {"r2"}, 2, none⟩], 1, none, none⟩]
    [⟨"b", {"a2"}, {"r2"}, [⟨"y", {"r2"}, 2, none⟩], 1, none, none⟩,
     ⟨"b", {"a1"}, {"r1"}, [⟨"x", {"r1"}, 1, none⟩], 1, none, none⟩]
    (List.Perm.swap _ _ [])
    (by decide)

/-! ### C7 -/

mutual

/-- `walk` produces exactly the per-directory results of the visited
directories, in visit order. -/
theorem walk_eq : ∀ t : FsTree,
    walk t = (visited t).filterMap fun entries => parse_book (.ok entries)
  | .node listing subs => by
    cases listing with
    | error e =>
      rw [walk, visited]
      rfl
    | ok entries =>
      rw [walk, visited, List.filterMap_cons, walkList_eq subs]
      cases parse_book (.ok entries) with
      | none => rfl
      | some r => rfl

/-- `walkList` produces the concatenation of the sibling subtrees'
results. -/
theorem walkList_eq : ∀ ts : List FsTree,
    walkList ts = (visitedList ts).filterMap fun entries => parse_book (.ok entries)
  | [] => rfl
  | t :: ts => by
    rw [walkList, visitedList, List.filterMap_append, walk_eq t, walkList_eq ts]

end

/-- C7: the walk yields exactly one result per visited directory that
has at least one parsable file (so at most one per visited directory); a
directory whose aggregation yields no usable fragment contributes no
entry (its subdirectories still being visited, as `visited` recurses
into them), and an unreadable listing is skipped non-fatally (`visited`
of such a node is empty). -/
theorem walk_one_result_per_directory (t : FsTree) :
    walk t = (visited t).filterMap (fun entries => parse_book (.ok entries)) ∧
    (walk t).length ≤ (visited t).length ∧
    (∀ entries ∈ visited t, usableFragments entries = [] →
      parse_book (.ok entries) = none) ∧
    (∀ e subs, walk (.node (.error e) subs) = [] ∧ visited (.node (.error e) subs) = []) := by
  refine ⟨walk_eq t, ?_, ?_, ?_⟩
  · rw [walk_eq t]
    exact List.length_filterMap_le _ _
  · intro entries _ hu
    rw [parse_book_ok_eq, hu]
    rfl
  · intro e subs
    constructor
    · rw [walk]
    · rw [visited]

/-- Witness for C7 at a concrete three-directory tree: the root has only
an unreadable entry, one subdirectory has an unreadable listing, the
other holds one parsable file. -/
theorem walk_one_result_per_directory_witness :
    walk (FsTree.node (.ok [RawEntry.err "boom"])
        [FsTree.node (.error "e") [],
         FsTree.node (.ok [RawEntry.ok ⟨some true,
           .ok ⟨some "t1", some ["x"], some 1, none, some "A", none, none, none⟩⟩]) []]) =
      ((visited (FsTree.node (.ok [RawEntry.err "boom"])
        [FsTree.node (.error "e") [],
         FsTree.node (.ok [RawEntry.ok ⟨some true,
           .ok ⟨some "t1", some ["x"], some 1, none, some "A", none, none, none⟩⟩]) []])).filterMap
        fun entries => parse_book (.ok entries)) ∧
    parse_book (.ok [RawEntry.err "boom"]) = none := by
  constructor
  · exact (walk_one_result_per_directory _).1
  · refine (walk_one_result_per_directory
      (FsTree.node (.ok [RawEntry.err "boom"]) [])).2.2.1 [RawEntry.err "boom"] ?_ rfl
    rw [visited]
    exact List.mem_cons_self _ _
